import Mathlib

/-!
Verification of the Wumpus World game engine (src/Wumpus_world.py).

The engine state and operations below are a shallow embedding of the
Python class WumpusWorld and its helpers: grid cells are pairs of
integers, Python sets are duplicate-free lists with membership insert,
the projectile sub-cell progress (a Python float advanced by 0.18 per
tick) is a rational number, and the rejection-sampling world generator
is modelled with an explicit stream of random draws plus a fuel bound.
-/

namespace Wumpus

/-- A grid coordinate (row, col), as produced by Python int arithmetic. -/
abbrev Cell := Int × Int

/-- The game-phase tag, Python string field game_state of WumpusWorld. -/
inductive GState where
  | MENU
  | PLAYING
  | PAUSED
  | AIM
  | GAME_OVER
  | WIN
  deriving DecidableEq, Repr

/-- Embedding of class ArrowProjectile: position, direction, sub-cell
progress frac, per-tick speed, and the resolution flags. -/
structure Arrow where
  row : Int
  col : Int
  dr : Int
  dc : Int
  frac : ℚ
  speed : ℚ
  done : Bool
  hit_wumpus : Bool
  deriving DecidableEq, Repr

/-- ArrowProjectile.__init__: starts at the agent cell with frac 0,
speed 0.18, unresolved. -/
def mkArrow (start_row start_col dr dc : Int) : Arrow :=
  { row := start_row, col := start_col, dr := dr, dc := dc,
    frac := 0, speed := 18/100, done := false, hit_wumpus := false }

/-- Embedding of the mutable state of class WumpusWorld.  Python sets
(visited, scored_cells) are duplicate-free lists; popups keep the
(points, row, col) data recorded by _add_score (pixel placement is
presentation only). -/
structure Game where
  grid_size : Int
  high_score : Int
  game_state : GState
  agent_pos : Cell
  agent_alive : Bool
  has_gold : Bool
  wumpus_alive : Bool
  arrow_used : Bool
  visited : List Cell
  scored_cells : List Cell
  message : String
  score : Int
  popups : List (Int × Int × Int)
  aim_dir : Option Cell
  arrow : Option Arrow
  wumpus : Cell
  gold : Cell
  pits : List Cell
  deriving DecidableEq, Repr

/-- WumpusWorld._add_score: add pts to the score, bump the in-memory
high score when exceeded, and record a popup at cell (r, c). -/
def addScore (g : Game) (pts r c : Int) : Game :=
  let sc := g.score + pts
  { g with
    score := sc,
    high_score := if sc > g.high_score then sc else g.high_score,
    popups := g.popups ++ [(pts, r, c)] }

/-- WumpusWorld._check_danger: a pit, or the live wumpus cell, kills
the agent and ends the game. -/
def checkDanger (g : Game) : Game :=
  if g.agent_pos ∈ g.pits then
    { g with agent_alive := false, game_state := GState.GAME_OVER,
             message := "Fell into a pit!" }
  else if g.agent_pos = g.wumpus ∧ g.wumpus_alive = true then
    { g with agent_alive := false, game_state := GState.GAME_OVER,
             message := "Eaten by the Wumpus!" }
  else g

/-- The position update and safe-visit bonus of the in-bounds body of
WumpusWorld.move, applied to the target cell (nx, ny). -/
def moveScore (g : Game) (nx ny : Int) : Game :=
  let g1 := { g with agent_pos := (nx, ny), visited := g.visited.insert (nx, ny) }
  if ((nx, ny) ∉ g.pits ∧ ¬((nx, ny) = g.wumpus ∧ g.wumpus_alive = true)) ∧
      (nx, ny) ∉ g1.scored_cells then
    addScore { g1 with scored_cells := g1.scored_cells.insert (nx, ny) } 10 nx ny
  else g1

/-- The in-bounds body of WumpusWorld.move: score the visit, check the
danger, then the auto-win on returning to start with the gold. -/
def moveStep (g : Game) (nx ny : Int) : Game :=
  let g3 := checkDanger (moveScore g nx ny)
  if g3.has_gold = true ∧ g3.agent_pos = (0, 0) ∧ g3.game_state = GState.PLAYING then
    { g3 with game_state := GState.WIN, message := "Escaped with the gold!" }
  else g3

/-- WumpusWorld.move: only in PLAYING, and only when the target stays
on the grid. -/
def move (g : Game) (dx dy : Int) : Game :=
  if g.game_state = GState.PLAYING then
    if 0 ≤ g.agent_pos.1 + dx ∧ g.agent_pos.1 + dx < g.grid_size ∧
       0 ≤ g.agent_pos.2 + dy ∧ g.agent_pos.2 + dy < g.grid_size then
      moveStep g (g.agent_pos.1 + dx) (g.agent_pos.2 + dy)
    else g
  else g

/-- WumpusWorld.grab: collect the gold at the gold cell, then (in the
same call) win if carrying gold at the start cell. -/
def grab (g : Game) : Game :=
  if g.game_state = GState.PLAYING then
    let g1 :=
      if g.agent_pos = g.gold ∧ g.has_gold = false then
        addScore { g with has_gold := true,
                          message := "Gold grabbed! +1000 pts! Head to start!" }
          1000 g.agent_pos.1 g.agent_pos.2
      else g
    if g1.has_gold = true ∧ g.agent_pos = (0, 0) then
      { g1 with game_state := GState.WIN, message := "Escaped with the gold!" }
    else g1
  else g

/-- WumpusWorld.fire_arrow: guarded only by arrow_used; charges -50 at
once and spawns the projectile at the agent cell. -/
def fire_arrow (g : Game) (dr dc : Int) : Game :=
  if g.arrow_used = true then g
  else
    let g1 := { g with arrow_used := true, game_state := GState.PLAYING }
    let g2 := addScore g1 (-50) g.agent_pos.1 g.agent_pos.2
    { g2 with arrow := some (mkArrow g.agent_pos.1 g.agent_pos.2 dr dc) }

/-- WumpusWorld.enter_aim_mode. -/
def enter_aim_mode (g : Game) : Game :=
  if g.arrow_used = true ∨ ¬g.game_state = GState.PLAYING then g
  else { g with game_state := GState.AIM, aim_dir := none,
                message := "AIM: Press an arrow key to shoot!" }

/-- WumpusWorld.cancel_aim. -/
def cancel_aim (g : Game) : Game :=
  { g with game_state := GState.PLAYING, message := "Aim cancelled." }

/-- WumpusWorld.update_arrow: one simulation tick of the in-flight
projectile. -/
def update_arrow (g : Game) : Game :=
  match g.arrow with
  | none => g
  | some a =>
    if a.done = true then g
    else
      let f := a.frac + a.speed
      if 1 ≤ f then
        let r := a.row + a.dr
        let c := a.col + a.dc
        if g.wumpus_alive = true ∧ (r, c) = g.wumpus then
          addScore
            { g with
              arrow := some { a with row := r, col := c, frac := 0,
                                     hit_wumpus := true, done := true },
              wumpus_alive := false,
              message := "Wumpus slain! +300 (-50 arrow)" }
            300 r c
        else if ¬(0 ≤ r ∧ r < g.grid_size ∧ 0 ≤ c ∧ c < g.grid_size) then
          { g with arrow := some { a with row := r, col := c, frac := 0, done := true },
                   message := "Arrow missed! (-50 charged on fire)" }
        else
          { g with arrow := some { a with row := r, col := c, frac := 0 } }
      else
        { g with arrow := some { a with frac := f } }

/-- WumpusWorld.adjacent: the orthogonal neighbours clipped to the
grid. -/
def adjacent (g : Game) (pos : Cell) : List Cell :=
  (if pos.1 > 0 then [(pos.1 - 1, pos.2)] else []) ++
  (if pos.1 < g.grid_size - 1 then [(pos.1 + 1, pos.2)] else []) ++
  (if pos.2 > 0 then [(pos.1, pos.2 - 1)] else []) ++
  (if pos.2 < g.grid_size - 1 then [(pos.1, pos.2 + 1)] else [])

/-- WumpusWorld.percepts. -/
def percepts (g : Game) : List String :=
  (if ∃ pit ∈ g.pits, pit ∈ adjacent g g.agent_pos then ["Breeze"] else []) ++
  (if g.wumpus_alive = true ∧ g.wumpus ∈ adjacent g g.agent_pos then ["Stench"] else []) ++
  (if g.agent_pos = g.gold ∧ g.has_gold = false then ["Glitter"] else [])

/-- The state produced by a fresh call to WumpusWorld._init_board,
before any random placement is examined: agent at the start cell with
(0, 0) pre-seeded in visited and scored_cells, score 0, arrow unused.
The placements (wumpus, gold, pits) and the retained high score are
parameters; game_state is set to PLAYING as the START button does. -/
def startGame (grid_size high_score : Int) (wumpus gold : Cell) (pits : List Cell) : Game :=
  { grid_size := grid_size, high_score := high_score,
    game_state := GState.PLAYING,
    agent_pos := (0, 0), agent_alive := true, has_gold := false,
    wumpus_alive := true, arrow_used := false,
    visited := [(0, 0)], scored_cells := [(0, 0)],
    message := "", score := 0, popups := [], aim_dir := none, arrow := none,
    wumpus := wumpus, gold := gold, pits := pits }

/-!  World generation (WumpusWorld._rand and the placement loop of
_init_board).  Python draws random.randint pairs until one avoids the
exclusion list.  The infinite draw sequence is an explicit stream; the
retry loop carries a fuel bound, so termination of the Python loop is
the existence of a sufficient fuel. -/

/-- WumpusWorld._rand over a draw stream: return the first draw, from
position i on, that avoids exclude (with its successor position), or
none when fuel runs out. -/
def randFuel (stream : Nat → Cell) (exclude : List Cell) : Nat → Nat → Option (Cell × Nat)
  | _, 0 => none
  | i, fuel + 1 =>
    if stream i ∈ exclude then randFuel stream exclude (i + 1) fuel
    else some (stream i, i + 1)

/-- The pit placement loop of _init_board: n pits, each drawn avoiding
base ++ the pits placed so far. -/
def placePits (stream : Nat → Cell) (base : List Cell) :
    Nat → List Cell → Nat → Nat → Option (List Cell × Nat)
  | 0, acc, i, _ => some (acc, i)
  | n + 1, acc, i, fuel =>
    match randFuel stream (base ++ acc) i fuel with
    | none => none
    | some (p, i2) => placePits stream base n (acc ++ [p]) i2 fuel

/-- The random placements of a generated world. -/
structure Board where
  wumpus : Cell
  gold : Cell
  pits : List Cell
  deriving DecidableEq, Repr

/-- The placement phase of WumpusWorld._init_board for grid size g:
wumpus avoiding (0,0); gold avoiding (0,0) and the wumpus; then g pits
(num_pits = grid_size), each avoiding everything placed before it. -/
def initBoardG (g : Nat) (stream : Nat → Cell) (fuel : Nat) : Option Board :=
  match randFuel stream [(0, 0)] 0 fuel with
  | none => none
  | some (w, i1) =>
    match randFuel stream [(0, 0), w] i1 fuel with
    | none => none
    | some (go, i2) =>
      match placePits stream [(0, 0), w, go] g [] i2 fuel with
      | none => none
      | some (ps, _) => some { wumpus := w, gold := go, pits := ps }

/-- A cell lies on the g × g grid. -/
def inB (g : Nat) (c : Cell) : Prop :=
  0 ≤ c.1 ∧ c.1 < (g : Int) ∧ 0 ≤ c.2 ∧ c.2 < (g : Int)

instance (g : Nat) (c : Cell) : Decidable (inB g c) := by
  unfold inB; infer_instance

/-- A draw stream is admissible for grid size g when every draw is on
the grid (random.randint keeps draws in range) and every grid cell
keeps reappearing (which holds with probability one for the uniform
sampler). -/
def FairStream (g : Nat) (stream : Nat → Cell) : Prop :=
  (∀ n, inB g (stream n)) ∧ ∀ i c, inB g c → ∃ j, i ≤ j ∧ stream j = c

/-- Generation for grid size g terminates: on every admissible draw
stream some fuel bound suffices for every retry loop. -/
def GenTerminates (g : Nat) : Prop :=
  ∀ stream, FairStream g stream → ∃ fuel, (initBoardG g stream fuel).isSome = true

/-!  High-score persistence (load_high_score / save_high_score).  The
CSV file holds at most one row per grid size; save_high_score reads it
into a dict keyed by grid size, so the store is a map from grid size
to the stored record. -/

/-- One stored row: best score and its timestamp string. -/
structure HSRecord where
  score : Int
  date : String
  deriving DecidableEq

/-- The high-score store: at most one record per grid size. -/
def HSStore := Nat → Option HSRecord

/-- load_high_score: the stored score for this grid size, 0 when no
record exists. -/
def load_high_score (store : HSStore) (grid_size : Nat) : Int :=
  match store grid_size with
  | some r => r.score
  | none => 0

/-- save_high_score: rewrite the record for grid_size only when the
new score strictly exceeds the stored one (0 when absent); all other
records are kept. -/
def save_high_score (store : HSStore) (grid_size : Nat) (score : Int) (now : String) : HSStore :=
  if score > load_high_score store grid_size then
    fun k => if k = grid_size then some { score := score, date := now } else store k
  else store

/-- A sequence of save_high_score calls, folded over the store. -/
def saveAll (store : HSStore) : List (Nat × Int × String) → HSStore
  | [] => store
  | (gs, sc, now) :: rest => saveAll (save_high_score store gs sc now) rest

/-!  Engine actions within one game instance.  restart and the START
button call _init_board, which discards the World and AgentState and
begins a new instance, so they are not actions of an instance trace. -/

/-- The discrete engine actions of one game instance. -/
inductive Act where
  | mv (dx dy : Int)
  | gr
  | fi (dr dc : Int)
  | upd
  | aimOn
  | aimOff
  deriving DecidableEq, Repr

/-- Dispatch one action to the engine. -/
def step (g : Game) : Act → Game
  | Act.mv dx dy => move g dx dy
  | Act.gr => grab g
  | Act.fi dr dc => fire_arrow g dr dc
  | Act.upd => update_arrow g
  | Act.aimOn => enter_aim_mode g
  | Act.aimOff => cancel_aim g

/-- Whether an action is a fire request. -/
def isFire : Act → Bool
  | Act.fi _ _ => true
  | _ => false

/-- How many actions of a trace actually charge the -50 firing cost:
a fire request reaching the engine while arrow_used is still false. -/
def fireCharges : Game → List Act → Nat
  | _, [] => 0
  | g, a :: rest =>
    (if isFire a = true ∧ g.arrow_used = false then 1 else 0) + fireCharges (step g a) rest

/-- A cell lies on the grid of game g (the bound used by move and
update_arrow). -/
def onGrid (g : Game) (c : Cell) : Prop :=
  0 ≤ c.1 ∧ c.1 < g.grid_size ∧ 0 ≤ c.2 ∧ c.2 < g.grid_size

instance (g : Game) (c : Cell) : Decidable (onGrid g c) := by
  unfold onGrid; infer_instance

/-- Modelled from the spec: a cell is orthogonally adjacent to p (one
of the four axis neighbours), the spec-side reading of adjacency used
to characterise WumpusWorld.adjacent. -/
def orthAdj (p c : Cell) : Prop :=
  c = (p.1 - 1, p.2) ∨ c = (p.1 + 1, p.2) ∨ c = (p.1, p.2 - 1) ∨ c = (p.1, p.2 + 1)

instance (p c : Cell) : Decidable (orthAdj p c) := by
  unfold orthAdj; infer_instance

/-- Whether a move target is a deadly cell: a pit or the live wumpus
(the condition tested by _check_danger). -/
def deadly (g : Game) (c : Cell) : Prop :=
  c ∈ g.pits ∨ (c = g.wumpus ∧ g.wumpus_alive = true)

instance (g : Game) (c : Cell) : Decidable (deadly g c) := by
  unfold deadly; infer_instance

/-!  Concrete states used by the witnesses. -/

/-- A concrete fresh 4 × 4 game in the PLAYING state. -/
def demo : Game :=
  startGame 4 0 (2, 2) (1, 1) [(3, 3), (3, 1), (1, 3), (2, 0)]

/-- The demo game paused with the arrow still available. -/
def pausedDemo : Game := { demo with game_state := GState.PAUSED }

/-- The demo game with the arrow already spent. -/
def usedDemo : Game := { demo with arrow_used := true }

/-- The demo game at the start cell already carrying the gold. -/
def goldDemo : Game := { demo with has_gold := true }

/-- An arrow one tick short of entering the wumpus cell of demo. -/
def aHit : Arrow :=
  { row := 2, col := 1, dr := 0, dc := 1, frac := 9/10, speed := 18/100,
    done := false, hit_wumpus := false }

/-- The demo game with that arrow in flight. -/
def gHit : Game := { demo with arrow_used := true, arrow := some aHit }

/-- An empty high-score store. -/
def emptyStore : HSStore := fun _ => none

/-- A draw stream walking down column 0, used to exercise the
generator on a concrete run. -/
def streamLin : Nat → Cell := fun n => ((n : Int), 0)

/-- The four cells of the 2 × 2 grid. -/
def cells4 : List Cell := [(0, 0), (1, 0), (0, 1), (1, 1)]

/-- A draw stream cycling through the 2 × 2 grid. -/
def cyc4 : Nat → Cell := fun n => cells4.getD (n % 4) (0, 0)

/-!  Projection lemmas: which fields each engine stage can touch. -/

@[simp] theorem addScore_agent_pos (g : Game) (p r c : Int) : (addScore g p r c).agent_pos = g.agent_pos := rfl

@[simp] theorem addScore_game_state (g : Game) (p r c : Int) : (addScore g p r c).game_state = g.game_state := rfl

@[simp] theorem addScore_has_gold (g : Game) (p r c : Int) : (addScore g p r c).has_gold = g.has_gold := rfl

@[simp] theorem addScore_wumpus (g : Game) (p r c : Int) : (addScore g p r c).wumpus = g.wumpus := rfl

@[simp] theorem addScore_wumpus_alive (g : Game) (p r c : Int) : (addScore g p r c).wumpus_alive = g.wumpus_alive := rfl

@[simp] theorem addScore_pits (g : Game) (p r c : Int) : (addScore g p r c).pits = g.pits := rfl

@[simp] theorem addScore_gold (g : Game) (p r c : Int) : (addScore g p r c).gold = g.gold := rfl

@[simp] theorem addScore_visited (g : Game) (p r c : Int) : (addScore g p r c).visited = g.visited := rfl

@[simp] theorem addScore_scored_cells (g : Game) (p r c : Int) : (addScore g p r c).scored_cells = g.scored_cells := rfl

@[simp] theorem addScore_agent_alive (g : Game) (p r c : Int) : (addScore g p r c).agent_alive = g.agent_alive := rfl

@[simp] theorem addScore_arrow_used (g : Game) (p r c : Int) : (addScore g p r c).arrow_used = g.arrow_used := rfl

@[simp] theorem addScore_arrow (g : Game) (p r c : Int) : (addScore g p r c).arrow = g.arrow := rfl

@[simp] theorem addScore_grid_size (g : Game) (p r c : Int) : (addScore g p r c).grid_size = g.grid_size := rfl

@[simp] theorem addScore_score (g : Game) (p r c : Int) : (addScore g p r c).score = g.score + p := rfl

@[simp] theorem addScore_popups (g : Game) (p r c : Int) : (addScore g p r c).popups = g.popups ++ [(p, r, c)] := rfl

@[simp] theorem checkDanger_agent_pos (g : Game) : (checkDanger g).agent_pos = g.agent_pos := by
  unfold checkDanger; split_ifs <;> rfl

@[simp] theorem checkDanger_has_gold (g : Game) : (checkDanger g).has_gold = g.has_gold := by
  unfold checkDanger; split_ifs <;> rfl

@[simp] theorem checkDanger_score (g : Game) : (checkDanger g).score = g.score := by
  unfold checkDanger; split_ifs <;> rfl

@[simp] theorem checkDanger_visited (g : Game) : (checkDanger g).visited = g.visited := by
  unfold checkDanger; split_ifs <;> rfl

@[simp] theorem checkDanger_scored_cells (g : Game) : (checkDanger g).scored_cells = g.scored_cells := by
  unfold checkDanger; split_ifs <;> rfl

@[simp] theorem checkDanger_wumpus_alive (g : Game) : (checkDanger g).wumpus_alive = g.wumpus_alive := by
  unfold checkDanger; split_ifs <;> rfl

@[simp] theorem checkDanger_arrow_used (g : Game) : (checkDanger g).arrow_used = g.arrow_used := by
  unfold checkDanger; split_ifs <;> rfl

@[simp] theorem checkDanger_grid_size (g : Game) : (checkDanger g).grid_size = g.grid_size := by
  unfold checkDanger; split_ifs <;> rfl

/-- _check_danger on a deadly agent cell: death and GAME_OVER. -/
theorem checkDanger_deadly (g : Game) (h : deadly g g.agent_pos) :
    (checkDanger g).agent_alive = false ∧ (checkDanger g).game_state = GState.GAME_OVER := by
  unfold checkDanger
  by_cases hp : g.agent_pos ∈ g.pits
  · rw [if_pos hp]; exact ⟨rfl, rfl⟩
  · rcases h with h | h
    · exact absurd h hp
    · rw [if_neg hp, if_pos h]; exact ⟨rfl, rfl⟩

/-- _check_danger on a safe agent cell is the identity. -/
theorem checkDanger_safe (g : Game) (h : ¬deadly g g.agent_pos) : checkDanger g = g := by
  unfold deadly at h
  push_neg at h
  unfold checkDanger
  rw [if_neg h.1, if_neg]
  intro hc
  exact (h.2 hc.1) hc.2

@[simp] theorem moveScore_agent_pos (g : Game) (nx ny : Int) : (moveScore g nx ny).agent_pos = (nx, ny) := by
  simp only [moveScore]; split_ifs <;> rfl

@[simp] theorem moveScore_visited (g : Game) (nx ny : Int) : (moveScore g nx ny).visited = g.visited.insert (nx, ny) := by
  simp only [moveScore]; split_ifs <;> rfl

@[simp] theorem moveScore_game_state (g : Game) (nx ny : Int) : (moveScore g nx ny).game_state = g.game_state := by
  simp only [moveScore]; split_ifs <;> rfl

@[simp] theorem moveScore_has_gold (g : Game) (nx ny : Int) : (moveScore g nx ny).has_gold = g.has_gold := by
  simp only [moveScore]; split_ifs <;> rfl

@[simp] theorem moveScore_wumpus (g : Game) (nx ny : Int) : (moveScore g nx ny).wumpus = g.wumpus := by
  simp only [moveScore]; split_ifs <;> rfl

@[simp] theorem moveScore_wumpus_alive (g : Game) (nx ny : Int) : (moveScore g nx ny).wumpus_alive = g.wumpus_alive := by
  simp only [moveScore]; split_ifs <;> rfl

@[simp] theorem moveScore_pits (g : Game) (nx ny : Int) : (moveScore g nx ny).pits = g.pits := by
  simp only [moveScore]; split_ifs <;> rfl

@[simp] theorem moveScore_agent_alive (g : Game) (nx ny : Int) : (moveScore g nx ny).agent_alive = g.agent_alive := by
  simp only [moveScore]; split_ifs <;> rfl

@[simp] theorem moveScore_arrow_used (g : Game) (nx ny : Int) : (moveScore g nx ny).arrow_used = g.arrow_used := by
  simp only [moveScore]; split_ifs <;> rfl

@[simp] theorem moveScore_grid_size (g : Game) (nx ny : Int) : (moveScore g nx ny).grid_size = g.grid_size := by
  simp only [moveScore]; split_ifs <;> rfl

/-- The safe-visit bonus of move: +10 and a newly scored cell exactly
when the target is safe and unscored. -/
theorem moveScore_score_pos (g : Game) (nx ny : Int)
    (h : ¬deadly g (nx, ny) ∧ (nx, ny) ∉ g.scored_cells) :
    (moveScore g nx ny).score = g.score + 10 ∧
      (moveScore g nx ny).scored_cells = g.scored_cells.insert (nx, ny) := by
  unfold moveScore
  unfold deadly at h
  push_neg at h
  rw [if_pos]
  · exact ⟨rfl, rfl⟩
  · exact ⟨⟨h.1.1, fun hc => (h.1.2 hc.1) hc.2⟩, h.2⟩

/-- No safe-visit bonus: the score and the scored set are untouched. -/
theorem moveScore_score_zero (g : Game) (nx ny : Int)
    (h : deadly g (nx, ny) ∨ (nx, ny) ∈ g.scored_cells) :
    (moveScore g nx ny).score = g.score ∧
      (moveScore g nx ny).scored_cells = g.scored_cells := by
  unfold moveScore
  rw [if_neg]
  · exact ⟨rfl, rfl⟩
  · rintro ⟨hsafe, hns⟩
    rcases h with h | h
    · unfold deadly at h
      rcases h with h | h
      · exact hsafe.1 h
      · exact hsafe.2 h
    · exact hns h

@[simp] theorem moveStep_agent_pos (g : Game) (nx ny : Int) : (moveStep g nx ny).agent_pos = (nx, ny) := by
  simp only [moveStep]; split_ifs <;> simp

@[simp] theorem moveStep_visited (g : Game) (nx ny : Int) : (moveStep g nx ny).visited = g.visited.insert (nx, ny) := by
  simp only [moveStep]; split_ifs <;> simp

@[simp] theorem moveStep_arrow_used (g : Game) (nx ny : Int) : (moveStep g nx ny).arrow_used = g.arrow_used := by
  simp only [moveStep]; split_ifs <;> simp

@[simp] theorem moveStep_has_gold (g : Game) (nx ny : Int) : (moveStep g nx ny).has_gold = g.has_gold := by
  simp only [moveStep]; split_ifs <;> simp

@[simp] theorem moveStep_score (g : Game) (nx ny : Int) : (moveStep g nx ny).score = (moveScore g nx ny).score := by
  simp only [moveStep]; split_ifs <;> simp

@[simp] theorem moveStep_scored_cells (g : Game) (nx ny : Int) :
    (moveStep g nx ny).scored_cells = (moveScore g nx ny).scored_cells := by
  simp only [moveStep]; split_ifs <;> simp

@[simp] theorem moveStep_wumpus_alive (g : Game) (nx ny : Int) : (moveStep g nx ny).wumpus_alive = g.wumpus_alive := by
  simp only [moveStep]; split_ifs <;> simp

/-- A move into a deadly cell: the agent dies and the game ends. -/
theorem moveStep_deadly (g : Game) (nx ny : Int) (hd : deadly g (nx, ny)) :
    (moveStep g nx ny).agent_alive = false ∧ (moveStep g nx ny).game_state = GState.GAME_OVER := by
  have hs : deadly (moveScore g nx ny) ((moveScore g nx ny).agent_pos) := by
    rw [moveScore_agent_pos]
    unfold deadly at hd ⊢
    rw [moveScore_pits, moveScore_wumpus, moveScore_wumpus_alive]
    exact hd
  have h := checkDanger_deadly _ hs
  simp only [moveStep]
  rw [if_neg]
  · exact h
  · rintro ⟨-, -, hps⟩
    rw [h.2] at hps
    exact absurd hps (by decide)

/-- A move into a safe cell: no danger transition, then the auto-win
test on the untouched game_state. -/
theorem moveStep_safe (g : Game) (nx ny : Int) (hs : ¬deadly g (nx, ny)) :
    moveStep g nx ny =
      if g.has_gold = true ∧ ((nx : Int), (ny : Int)) = ((0 : Int), (0 : Int)) ∧
          g.game_state = GState.PLAYING then
        { moveScore g nx ny with game_state := GState.WIN, message := "Escaped with the gold!" }
      else moveScore g nx ny := by
  have hcd : checkDanger (moveScore g nx ny) = moveScore g nx ny := by
    refine checkDanger_safe _ ?_
    rw [moveScore_agent_pos]
    unfold deadly at hs ⊢
    rw [moveScore_pits, moveScore_wumpus, moveScore_wumpus_alive]
    exact hs
  simp only [moveStep, hcd, moveScore_has_gold, moveScore_agent_pos, moveScore_game_state]

/-- A move when the game is not in the PLAYING state is ignored. -/
theorem move_not_playing (g : Game) (dx dy : Int) (h : ¬g.game_state = GState.PLAYING) :
    move g dx dy = g := by
  unfold move; rw [if_neg h]

@[simp] theorem move_arrow_used (g : Game) (dx dy : Int) : (move g dx dy).arrow_used = g.arrow_used := by
  unfold move; split_ifs <;> simp

@[simp] theorem move_wumpus_alive (g : Game) (dx dy : Int) : (move g dx dy).wumpus_alive = g.wumpus_alive := by
  unfold move; split_ifs <;> simp

/-- The score after moveScore: unchanged or the +10 bonus. -/
theorem moveScore_score_cases (g : Game) (nx ny : Int) :
    (moveScore g nx ny).score = g.score ∨ (moveScore g nx ny).score = g.score + 10 := by
  by_cases h : ¬deadly g (nx, ny) ∧ (nx, ny) ∉ g.scored_cells
  · exact Or.inr (moveScore_score_pos g nx ny h).1
  · left
    refine (moveScore_score_zero g nx ny ?_).1
    by_cases hd : deadly g (nx, ny)
    · exact Or.inl hd
    · right
      by_contra hns
      exact h ⟨hd, hns⟩

/-- The score after a move: unchanged or the +10 bonus. -/
theorem move_score_cases (g : Game) (dx dy : Int) :
    (move g dx dy).score = g.score ∨ (move g dx dy).score = g.score + 10 := by
  unfold move
  split_ifs with h1 h2
  · rw [moveStep_score]
    exact moveScore_score_cases g _ _
  · exact Or.inl rfl
  · exact Or.inl rfl

/-- A grab when the game is not in the PLAYING state is ignored. -/
theorem grab_not_playing (g : Game) (h : ¬g.game_state = GState.PLAYING) : grab g = g := by
  unfold grab; rw [if_neg h]

@[simp] theorem grab_arrow_used (g : Game) : (grab g).arrow_used = g.arrow_used := by
  simp only [grab]; split_ifs <;> simp

@[simp] theorem grab_wumpus_alive (g : Game) : (grab g).wumpus_alive = g.wumpus_alive := by
  simp only [grab]; split_ifs <;> simp

/-- The score after a grab: unchanged or the +1000 gold bonus. -/
theorem grab_score_cases (g : Game) :
    (grab g).score = g.score ∨ (grab g).score = g.score + 1000 := by
  simp only [grab]; split_ifs <;> simp

/-- A fire request with the arrow already spent is ignored. -/
theorem fire_used (g : Game) (dr dc : Int) (h : g.arrow_used = true) : fire_arrow g dr dc = g := by
  unfold fire_arrow; rw [if_pos h]

/-- A fire request with the arrow available: latch, cost, spawn. -/
theorem fire_unused (g : Game) (dr dc : Int) (h : g.arrow_used = false) :
    (fire_arrow g dr dc).arrow_used = true ∧
    (fire_arrow g dr dc).score = g.score - 50 ∧
    (fire_arrow g dr dc).game_state = GState.PLAYING ∧
    (fire_arrow g dr dc).arrow = some (mkArrow g.agent_pos.1 g.agent_pos.2 dr dc) := by
  have hn : ¬g.arrow_used = true := by rw [h]; decide
  simp only [fire_arrow]
  rw [if_neg hn]
  refine ⟨rfl, ?_, rfl, rfl⟩
  show g.score + (-50) = g.score - 50
  omega

@[simp] theorem fire_arrow_wumpus_alive (g : Game) (dr dc : Int) :
    (fire_arrow g dr dc).wumpus_alive = g.wumpus_alive := by
  simp only [fire_arrow]; split_ifs <;> simp

/-- The score after a fire request: unchanged or the -50 cost. -/
theorem fire_score_cases (g : Game) (dr dc : Int) :
    (fire_arrow g dr dc).score = g.score ∨ (fire_arrow g dr dc).score = g.score - 50 := by
  by_cases h : g.arrow_used = true
  · rw [fire_used g dr dc h]; exact Or.inl rfl
  · right
    exact (fire_unused g dr dc (by revert h; cases g.arrow_used <;> simp)).2.1

@[simp] theorem enter_aim_arrow_used (g : Game) : (enter_aim_mode g).arrow_used = g.arrow_used := by
  unfold enter_aim_mode; split_ifs <;> rfl

@[simp] theorem enter_aim_score (g : Game) : (enter_aim_mode g).score = g.score := by
  unfold enter_aim_mode; split_ifs <;> rfl

@[simp] theorem enter_aim_wumpus_alive (g : Game) : (enter_aim_mode g).wumpus_alive = g.wumpus_alive := by
  unfold enter_aim_mode; split_ifs <;> rfl

@[simp] theorem cancel_aim_arrow_used (g : Game) : (cancel_aim g).arrow_used = g.arrow_used := rfl

@[simp] theorem cancel_aim_score (g : Game) : (cancel_aim g).score = g.score := rfl

@[simp] theorem cancel_aim_wumpus_alive (g : Game) : (cancel_aim g).wumpus_alive = g.wumpus_alive := rfl

@[simp] theorem update_arrow_arrow_used (g : Game) : (update_arrow g).arrow_used = g.arrow_used := by
  cases harr : g.arrow with
  | none => simp [update_arrow, harr]
  | some a => simp only [update_arrow, harr]; split_ifs <;> simp

/-- The score after an arrow tick: unchanged or the +300 kill award. -/
theorem update_arrow_score_cases (g : Game) :
    (update_arrow g).score = g.score ∨ (update_arrow g).score = g.score + 300 := by
  cases harr : g.arrow with
  | none => simp [update_arrow, harr]
  | some a => simp only [update_arrow, harr]; split_ifs <;> simp

/-- No engine action revives the wumpus. -/
theorem update_arrow_no_revive (g : Game) (h : g.wumpus_alive = false) :
    (update_arrow g).wumpus_alive = false := by
  cases harr : g.arrow with
  | none => simp [update_arrow, harr, h]
  | some a => simp only [update_arrow, harr]; split_ifs <;> simp [h]

/-- C1: in the PLAYING state, a move whose target (dr, dc) falls off
the grid leaves the entire state unchanged; an in-bounds move sets the
position to the target and adds it to the visited set, then kills the
agent and ends the game when the target is a pit or the live wumpus
cell, and otherwise wins exactly when carrying gold back at (0, 0),
staying in PLAYING in every other case. -/
theorem move_semantics (g : Game) (dx dy : Int) (t : Cell)
    (hp : g.game_state = GState.PLAYING)
    (ht : t = (g.agent_pos.1 + dx, g.agent_pos.2 + dy)) :
    (¬onGrid g t → move g dx dy = g) ∧
    (onGrid g t →
      (move g dx dy).agent_pos = t ∧
      (move g dx dy).visited = g.visited.insert t ∧
      (deadly g t →
        (move g dx dy).agent_alive = false ∧
        (move g dx dy).game_state = GState.GAME_OVER) ∧
      (¬deadly g t →
        ((g.has_gold = true ∧ t = (0, 0)) → (move g dx dy).game_state = GState.WIN) ∧
        (¬(g.has_gold = true ∧ t = (0, 0)) → (move g dx dy).game_state = GState.PLAYING))) := by
  subst ht
  unfold move
  rw [if_pos hp]
  constructor
  · intro hout
    rw [if_neg]
    intro hc
    exact hout hc
  · intro hin
    have hin2 : 0 ≤ g.agent_pos.1 + dx ∧ g.agent_pos.1 + dx < g.grid_size ∧
        0 ≤ g.agent_pos.2 + dy ∧ g.agent_pos.2 + dy < g.grid_size := hin
    rw [if_pos hin2]
    refine ⟨moveStep_agent_pos g _ _, moveStep_visited g _ _, ?_, ?_⟩
    · exact moveStep_deadly g _ _
    · intro hs
      rw [moveStep_safe g _ _ hs]
      constructor
      · rintro ⟨hg, h0⟩
        have h1 : ((g.agent_pos.1 + dx : Int), (g.agent_pos.2 + dy : Int)) = ((0 : Int), (0 : Int)) := h0
        rw [if_pos ⟨hg, h1, hp⟩]
      · intro hng
        rw [if_neg, moveScore_game_state]
        · exact hp
        · rintro ⟨h1, h2, -⟩
          exact hng ⟨h1, h2⟩

/-- Concrete run of the C1 move semantics on the demo game. -/
theorem move_semantics_witness :
    (move demo 0 1).agent_pos = (0, 1) ∧
    (move demo 0 1).game_state = GState.PLAYING := by
  have h := (move_semantics demo 0 1 (0, 1) rfl rfl).2 (by decide)
  exact ⟨h.1, (h.2.2.2 (by decide)).2 (by decide)⟩

/-- C2: the +10 safe-visit bonus is granted at most once per cell: an
in-bounds move to a safe, not-yet-scored cell adds exactly 10 and
marks the cell scored; a move to an already scored cell leaves the
score unchanged; (0, 0) is pre-scored at game start, and one valid
safe unit-vector move from the fresh state yields score exactly 10. -/
theorem safe_visit_bonus (g : Game) (dx dy : Int) (t : Cell)
    (gs hs : Int) (w go : Cell) (ps : List Cell) (ex ey : Int)
    (hp : g.game_state = GState.PLAYING)
    (ht : t = (g.agent_pos.1 + dx, g.agent_pos.2 + dy))
    (hin : onGrid g t)
    (hunit : ((ex, ey) : Cell) ∈ ([(-1, 0), (1, 0), (0, -1), (0, 1)] : List Cell))
    (hin0 : 0 ≤ ex ∧ ex < gs ∧ 0 ≤ ey ∧ ey < gs)
    (hsafe0 : (ex, ey) ∉ ps ∧ ((ex : Int), (ey : Int)) ≠ w) :
    (¬deadly g t ∧ t ∉ g.scored_cells →
      (move g dx dy).score = g.score + 10 ∧
      t ∈ (move g dx dy).scored_cells ∧
      (move g dx dy).scored_cells = g.scored_cells.insert t) ∧
    (t ∈ g.scored_cells → (move g dx dy).score = g.score) ∧
    (0, 0) ∈ (startGame gs hs w go ps).scored_cells ∧
    (move (startGame gs hs w go ps) ex ey).score = 10 := by
  have hmv : move g dx dy = moveStep g (g.agent_pos.1 + dx) (g.agent_pos.2 + dy) := by
    have hin2 : 0 ≤ g.agent_pos.1 + dx ∧ g.agent_pos.1 + dx < g.grid_size ∧
        0 ≤ g.agent_pos.2 + dy ∧ g.agent_pos.2 + dy < g.grid_size := by
      subst ht; exact hin
    unfold move
    rw [if_pos hp, if_pos hin2]
  subst ht
  refine ⟨?_, ?_, ?_, ?_⟩
  · intro hnew
    have h := moveScore_score_pos g _ _ hnew
    rw [hmv, moveStep_score, moveStep_scored_cells, h.1, h.2]
    exact ⟨rfl, List.mem_insert_self _ _, rfl⟩
  · intro hold
    rw [hmv, moveStep_score, (moveScore_score_zero g _ _ (Or.inr hold)).1]
  · show ((0 : Int), (0 : Int)) ∈ [((0 : Int), (0 : Int))]
    exact List.mem_singleton.2 rfl
  · have hmv0 : move (startGame gs hs w go ps) ex ey =
        moveStep (startGame gs hs w go ps)
          ((startGame gs hs w go ps).agent_pos.1 + ex)
          ((startGame gs hs w go ps).agent_pos.2 + ey) := by
      have hc : 0 ≤ (startGame gs hs w go ps).agent_pos.1 + ex ∧
          (startGame gs hs w go ps).agent_pos.1 + ex < (startGame gs hs w go ps).grid_size ∧
          0 ≤ (startGame gs hs w go ps).agent_pos.2 + ey ∧
          (startGame gs hs w go ps).agent_pos.2 + ey < (startGame gs hs w go ps).grid_size := by
        show 0 ≤ 0 + ex ∧ 0 + ex < gs ∧ 0 ≤ 0 + ey ∧ 0 + ey < gs
        omega
      unfold move
      rw [if_pos (show (startGame gs hs w go ps).game_state = GState.PLAYING from rfl),
          if_pos hc]
    have hne0 : ((ex : Int), (ey : Int)) ≠ ((0 : Int), (0 : Int)) := by
      fin_cases hunit <;> decide
    have hnew : ¬deadly (startGame gs hs w go ps) (0 + ex, 0 + ey) ∧
        ((0 + ex : Int), (0 + ey : Int)) ∉ (startGame gs hs w go ps).scored_cells := by
      constructor
      · rintro (hpit | ⟨hw, -⟩)
        · exact hsafe0.1 (by simpa using hpit)
        · exact hsafe0.2 (by simpa using hw)
      · intro hmem
        rcases List.mem_singleton.1 hmem with h
        exact hne0 (by simpa using h)
    have h := moveScore_score_pos (startGame gs hs w go ps) (0 + ex) (0 + ey) hnew
    rw [hmv0]
    show (moveStep (startGame gs hs w go ps) (0 + ex) (0 + ey)).score = 10
    rw [moveStep_score, h.1]
    show (0 : Int) + 10 = 10
    decide

/-- Concrete run of the C2 bonus rule: one safe move from the fresh
demo game scores exactly 10, and the start cell is pre-scored. -/
theorem safe_visit_bonus_witness :
    (0, 0) ∈ (startGame 4 0 (2, 2) (1, 1) [(3, 3), (3, 1), (1, 3), (2, 0)]).scored_cells ∧
    (move (startGame 4 0 (2, 2) (1, 1) [(3, 3), (3, 1), (1, 3), (2, 0)]) 0 1).score = 10 := by
  have h := safe_visit_bonus demo 0 1 (0, 1) 4 0 (2, 2) (1, 1)
    [(3, 3), (3, 1), (1, 3), (2, 0)] 0 1 rfl rfl (by decide) (by decide)
    (by decide) (by decide)
  exact ⟨h.2.2.1, h.2.2.2⟩

/-- C10: grab in the PLAYING state while already carrying the gold at
the start cell wins the game with no score change. -/
theorem grab_exit (g : Game)
    (hp : g.game_state = GState.PLAYING) (hg : g.has_gold = true)
    (h0 : g.agent_pos = (0, 0)) :
    (grab g).game_state = GState.WIN ∧ (grab g).score = g.score := by
  have hc1 : ¬(g.agent_pos = g.gold ∧ g.has_gold = false) := by
    rintro ⟨-, hf⟩
    rw [hg] at hf
    cases hf
  simp only [grab]
  rw [if_pos hp]
  split_ifs with h1
  · exact ⟨rfl, rfl⟩
  · exact absurd ⟨hg, h0⟩ h1

/-- Concrete run of the C10 exit behaviour of grab. -/
theorem grab_exit_witness :
    (grab goldDemo).game_state = GState.WIN ∧ (grab goldDemo).score = goldDemo.score :=
  grab_exit goldDemo rfl rfl rfl

/-- C7 fails as stated: fire_arrow is guarded only by arrow_used, so a
fire request in the PAUSED state with the arrow available does change
the state. -/
theorem illegal_actions_cex : ¬(fire_arrow pausedDemo 0 1 = pausedDemo) := by
  intro h
  have h2 := congrArg Game.arrow_used h
  rw [(fire_unused pausedDemo 0 1 rfl).1] at h2
  cases h2

/-- C7 amended: fire while the arrow is already used, move while not
PLAYING, and grab while not PLAYING are all silently ignored; the fire
guard is arrow_used only, not the AIM state. -/
theorem illegal_actions_ignored (g : Game) (dr dc dx dy : Int) :
    (g.arrow_used = true → fire_arrow g dr dc = g) ∧
    (¬g.game_state = GState.PLAYING → move g dx dy = g) ∧
    (¬g.game_state = GState.PLAYING → grab g = g) :=
  ⟨fire_used g dr dc, move_not_playing g dx dy, fun h => grab_not_playing g h⟩

/-- Concrete runs of the three ignored illegal actions. -/
theorem illegal_actions_ignored_witness :
    fire_arrow usedDemo 0 1 = usedDemo ∧
    move pausedDemo 0 1 = pausedDemo ∧
    grab pausedDemo = pausedDemo :=
  ⟨(illegal_actions_ignored usedDemo 0 1 0 1).1 rfl,
   (illegal_actions_ignored pausedDemo 0 1 0 1).2.1 (by decide),
   (illegal_actions_ignored pausedDemo 0 1 0 1).2.2 (by decide)⟩

/-- No engine action within a game instance resets the arrow latch. -/
theorem step_latch (g : Game) (a : Act) (h : g.arrow_used = true) :
    (step g a).arrow_used = true := by
  cases a with
  | mv dx dy => rw [step, move_arrow_used]; exact h
  | gr => rw [step, grab_arrow_used]; exact h
  | fi dr dc => rw [step, fire_used g dr dc h]; exact h
  | upd => rw [step, update_arrow_arrow_used]; exact h
  | aimOn => rw [step, enter_aim_arrow_used]; exact h
  | aimOff => rw [step, cancel_aim_arrow_used]; exact h

/-- Once the arrow latch is set, no later action of the trace charges
the firing cost. -/
theorem fireCharges_zero (acts : List Act) : ∀ g : Game, g.arrow_used = true →
    fireCharges g acts = 0 := by
  induction acts with
  | nil => intro g _; rfl
  | cons a rest ih =>
    intro g h
    simp only [fireCharges]
    rw [if_neg (by rintro ⟨-, hf⟩; rw [h] at hf; cases hf)]
    rw [ih (step g a) (step_latch g a h)]

/-- A fire request reaching an unlatched engine sets the latch. -/
theorem step_fire_latch (g : Game) (a : Act) (hf : isFire a = true)
    (hu : g.arrow_used = false) : (step g a).arrow_used = true := by
  cases a with
  | mv dx dy => cases hf
  | gr => cases hf
  | fi dr dc => exact (fire_unused g dr dc hu).1
  | upd => cases hf
  | aimOn => cases hf
  | aimOff => cases hf

/-- The firing cost is charged at most once along any action trace. -/
theorem fireCharges_le_one (acts : List Act) : ∀ g : Game, fireCharges g acts ≤ 1 := by
  induction acts with
  | nil => intro g; exact Nat.zero_le 1
  | cons a rest ih =>
    intro g
    by_cases hu : g.arrow_used = true
    · rw [fireCharges_zero (a :: rest) g hu]
      exact Nat.zero_le 1
    · have hu2 : g.arrow_used = false := by
        revert hu; cases g.arrow_used <;> simp
      by_cases hf : isFire a = true
      · simp only [fireCharges]
        rw [if_pos ⟨hf, hu2⟩,
            fireCharges_zero rest (step g a) (step_fire_latch g a hf hu2)]
      · simp only [fireCharges]
        rw [if_neg (by rintro ⟨h1, -⟩; exact hf h1)]
        simpa using ih (step g a)

/-- The possible score changes of one engine action: 0, the +10 visit
bonus, the +300 kill award, the +1000 gold award, or the -50 firing
cost, the last only for a fire request on an unlatched engine. -/
theorem step_score_delta (g : Game) (a : Act) :
    (step g a).score = g.score ∨ (step g a).score = g.score + 10 ∨
    (step g a).score = g.score + 300 ∨ (step g a).score = g.score + 1000 ∨
    ((step g a).score = g.score - 50 ∧ isFire a = true ∧ g.arrow_used = false) := by
  cases a with
  | mv dx dy =>
    rcases move_score_cases g dx dy with h | h
    · exact Or.inl h
    · exact Or.inr (Or.inl h)
  | gr =>
    rcases grab_score_cases g with h | h
    · exact Or.inl h
    · exact Or.inr (Or.inr (Or.inr (Or.inl h)))
  | fi dr dc =>
    by_cases hu : g.arrow_used = true
    · rw [step, fire_used g dr dc hu]
      exact Or.inl rfl
    · have hu2 : g.arrow_used = false := by
        revert hu; cases g.arrow_used <;> simp
      exact Or.inr (Or.inr (Or.inr (Or.inr
        ⟨(fire_unused g dr dc hu2).2.1, rfl, hu2⟩)))
  | upd =>
    rcases update_arrow_score_cases g with h | h
    · exact Or.inl h
    · exact Or.inr (Or.inr (Or.inl h))
  | aimOn => exact Or.inl (enter_aim_score g)
  | aimOff => exact Or.inl rfl

/-- C4: the -50 firing cost is charged exactly once per game instance,
at fire time: a fire request with the latch clear charges -50 at once,
latches arrow_used, and spawns a still-unresolved projectile; with the
latch set it leaves the state unchanged; the only action that can ever
change the score by -50 is such a first fire, no action refunds +50,
and every action trace charges the cost at most once. -/
theorem fire_cost_once (g : Game) (dr dc : Int) (act : Act) (acts : List Act)
    (hu : g.arrow_used = false) :
    (fire_arrow g dr dc).arrow_used = true ∧
    (fire_arrow g dr dc).score = g.score - 50 ∧
    (fire_arrow g dr dc).arrow = some (mkArrow g.agent_pos.1 g.agent_pos.2 dr dc) ∧
    (mkArrow g.agent_pos.1 g.agent_pos.2 dr dc).done = false ∧
    (∀ g2 : Game, g2.arrow_used = true → fire_arrow g2 dr dc = g2) ∧
    ((step g act).score = g.score - 50 → isFire act = true ∧ g.arrow_used = false) ∧
    ¬(step g act).score = g.score + 50 ∧
    fireCharges g acts ≤ 1 := by
  have hfu := fire_unused g dr dc hu
  refine ⟨hfu.1, hfu.2.1, hfu.2.2.2, rfl, fun g2 h => fire_used g2 dr dc h, ?_, ?_,
    fireCharges_le_one acts g⟩
  · intro hsc
    rcases step_score_delta g act with h | h | h | h | h
    · rw [hsc] at h; omega
    · rw [hsc] at h; omega
    · rw [hsc] at h; omega
    · rw [hsc] at h; omega
    · exact h.2
  · intro hsc
    rcases step_score_delta g act with h | h | h | h | h
    · rw [hsc] at h; omega
    · rw [hsc] at h; omega
    · rw [hsc] at h; omega
    · rw [hsc] at h; omega
    · obtain ⟨h1, -, -⟩ := h
      rw [hsc] at h1
      omega

/-- Concrete run of the C4 firing-cost rule on the demo game. -/
theorem fire_cost_once_witness :
    (fire_arrow demo 0 1).arrow_used = true ∧
    (fire_arrow demo 0 1).score = demo.score - 50 ∧
    fireCharges demo [Act.fi 0 1, Act.fi 1 0] ≤ 1 := by
  have h := fire_cost_once demo 0 1 (Act.fi 0 1) [Act.fi 0 1, Act.fi 1 0] rfl
  exact ⟨h.1, h.2.1, h.2.2.2.2.2.2.2⟩

/-- C3: one projectile tick.  An absent or resolved projectile is
never stepped.  A flying projectile advances frac by its fixed speed;
when that reaches 1.0 frac resets to 0 and the position advances by
exactly one cell in the fired direction, after which: a live wumpus on
the new cell resolves the flight as a hit, removes the wumpus (which
no engine action ever revives) and awards +300 at that cell; an
off-grid cell resolves it as a miss with no score change; otherwise it
keeps flying unresolved. -/
theorem projectile_step (g : Game) (a : Arrow) (dx dy : Int) :
    (g.arrow = none → update_arrow g = g) ∧
    (g.arrow = some a → a.done = true → update_arrow g = g) ∧
    (g.arrow = some a → a.done = false →
      (a.frac + a.speed < 1 →
        update_arrow g = { g with arrow := some { a with frac := a.frac + a.speed } }) ∧
      (1 ≤ a.frac + a.speed →
        (g.wumpus_alive = true ∧ ((a.row + a.dr, a.col + a.dc) : Cell) = g.wumpus →
          (update_arrow g).arrow = some { a with row := a.row + a.dr, col := a.col + a.dc,
                                                   frac := 0, done := true,
                                                   hit_wumpus := true } ∧
          (update_arrow g).wumpus_alive = false ∧
          (update_arrow g).score = g.score + 300 ∧
          (update_arrow g).popups = g.popups ++ [(300, a.row + a.dr, a.col + a.dc)]) ∧
        (¬(g.wumpus_alive = true ∧ ((a.row + a.dr, a.col + a.dc) : Cell) = g.wumpus) →
          (¬onGrid g (a.row + a.dr, a.col + a.dc) →
            (update_arrow g).arrow = some { a with row := a.row + a.dr, col := a.col + a.dc,
                                                     frac := 0, done := true } ∧
            (update_arrow g).score = g.score ∧
            (update_arrow g).wumpus_alive = g.wumpus_alive) ∧
          (onGrid g (a.row + a.dr, a.col + a.dc) →
            (update_arrow g).arrow = some { a with row := a.row + a.dr, col := a.col + a.dc,
                                                     frac := 0 } ∧
            ({ a with row := a.row + a.dr, col := a.col + a.dc, frac := 0 } : Arrow).done = false ∧
            (update_arrow g).score = g.score)))) ∧
    (g.wumpus_alive = false →
      (update_arrow g).wumpus_alive = false ∧ (move g dx dy).wumpus_alive = false ∧
      (grab g).wumpus_alive = false ∧ (fire_arrow g dx dy).wumpus_alive = false) := by
  refine ⟨?_, ?_, ?_, ?_⟩
  · intro h
    simp only [update_arrow, h]
  · intro h hd
    simp only [update_arrow, h]
    rw [if_pos hd]
  · intro h hd
    have hnd : ¬a.done = true := by rw [hd]; decide
    constructor
    · intro hlt
      simp only [update_arrow, h]
      rw [if_neg hnd, if_neg (not_le.mpr hlt)]
    · intro hge
      constructor
      · intro hhit
        simp only [update_arrow, h]
        rw [if_neg hnd, if_pos hge, if_pos hhit]
        exact ⟨rfl, rfl, rfl, rfl⟩
      · intro hmiss
        constructor
        · intro hout
          have hout2 : ¬(0 ≤ a.row + a.dr ∧ a.row + a.dr < g.grid_size ∧
              0 ≤ a.col + a.dc ∧ a.col + a.dc < g.grid_size) := hout
          simp only [update_arrow, h]
          rw [if_neg hnd, if_pos hge, if_neg hmiss, if_pos hout2]
          exact ⟨rfl, rfl, rfl⟩
        · intro hins
          simp only [update_arrow, h]
          rw [if_neg hnd, if_pos hge, if_neg hmiss,
              if_neg (show ¬¬(0 ≤ a.row + a.dr ∧ a.row + a.dr < g.grid_size ∧
                0 ≤ a.col + a.dc ∧ a.col + a.dc < g.grid_size) from fun hc => hc hins)]
          exact ⟨rfl, by rw [hd], rfl⟩
  · intro hw
    refine ⟨update_arrow_no_revive g hw, ?_, ?_, ?_⟩
    · rw [move_wumpus_alive]; exact hw
    · rw [grab_wumpus_alive]; exact hw
    · rw [fire_arrow_wumpus_alive]; exact hw

/-- Concrete run of the C3 hit transition: the demo arrow enters the
wumpus cell, the wumpus dies, and +300 is awarded. -/
theorem projectile_step_witness :
    (update_arrow gHit).score = gHit.score + 300 ∧
    (update_arrow gHit).wumpus_alive = false := by
  have h := ((projectile_step gHit aHit 0 1).2.2.1 rfl rfl).2 (by norm_num [aHit])
  have h2 := h.1 (by decide)
  exact ⟨h2.2.2.1, h2.2.1⟩

/-- The clipped neighbour list of adjacent, characterised: for an
on-grid position, membership is exactly orthogonal adjacency within
the grid. -/
theorem mem_adjacent_iff (g : Game) (p c : Cell) (hb : onGrid g p) :
    c ∈ adjacent g p ↔ orthAdj p c ∧ onGrid g c := by
  obtain ⟨x, y⟩ := p
  obtain ⟨u, v⟩ := c
  obtain ⟨hb1, hb2, hb3, hb4⟩ := hb
  simp only [adjacent, orthAdj, onGrid, List.mem_append] at *
  split_ifs <;> simp_all [Prod.mk.injEq] <;> omega

/-- Breeze is reported exactly when a pit is on the clipped neighbour
list. -/
theorem breeze_mem (g : Game) :
    "Breeze" ∈ percepts g ↔ ∃ pit ∈ g.pits, pit ∈ adjacent g g.agent_pos := by
  unfold percepts
  constructor
  · intro hm
    rcases List.mem_append.1 hm with hm | hm
    · rcases List.mem_append.1 hm with hm | hm
      · split_ifs at hm with h1
        · exact h1
        · exact absurd hm (List.not_mem_nil _)
      · split_ifs at hm with h1
        · exact absurd (List.mem_singleton.1 hm) (by decide)
        · exact absurd hm (List.not_mem_nil _)
    · split_ifs at hm with h1
      · exact absurd (List.mem_singleton.1 hm) (by decide)
      · exact absurd hm (List.not_mem_nil _)
  · intro h
    refine List.mem_append_left _ (List.mem_append_left _ ?_)
    rw [if_pos h]
    exact List.mem_singleton.2 rfl

/-- Stench is reported exactly when the wumpus is alive and on the
clipped neighbour list. -/
theorem stench_mem (g : Game) :
    "Stench" ∈ percepts g ↔ g.wumpus_alive = true ∧ g.wumpus ∈ adjacent g g.agent_pos := by
  unfold percepts
  constructor
  · intro hm
    rcases List.mem_append.1 hm with hm | hm
    · rcases List.mem_append.1 hm with hm | hm
      · split_ifs at hm with h1
        · exact absurd (List.mem_singleton.1 hm) (by decide)
        · exact absurd hm (List.not_mem_nil _)
      · split_ifs at hm with h1
        · exact h1
        · exact absurd hm (List.not_mem_nil _)
    · split_ifs at hm with h1
      · exact absurd (List.mem_singleton.1 hm) (by decide)
      · exact absurd hm (List.not_mem_nil _)
  · intro h
    refine List.mem_append_left _ (List.mem_append_right _ ?_)
    rw [if_pos h]
    exact List.mem_singleton.2 rfl

/-- Glitter is reported exactly at the uncollected gold cell. -/
theorem glitter_mem (g : Game) :
    "Glitter" ∈ percepts g ↔ g.agent_pos = g.gold ∧ g.has_gold = false := by
  unfold percepts
  constructor
  · intro hm
    rcases List.mem_append.1 hm with hm | hm
    · rcases List.mem_append.1 hm with hm | hm
      · split_ifs at hm with h1
        · exact absurd (List.mem_singleton.1 hm) (by decide)
        · exact absurd hm (List.not_mem_nil _)
      · split_ifs at hm with h1
        · exact absurd (List.mem_singleton.1 hm) (by decide)
        · exact absurd hm (List.not_mem_nil _)
    · split_ifs at hm with h1
      · exact h1
      · exact absurd hm (List.not_mem_nil _)
  · intro h
    refine List.mem_append_right _ ?_
    rw [if_pos h]
    exact List.mem_singleton.2 rfl

/-- C9: percepts is a pure function of the state returning a subset of
the three cues: Breeze exactly when an orthogonally adjacent in-bounds
cell is a pit, Stench exactly when the wumpus is alive on an
orthogonally adjacent in-bounds cell, Glitter exactly at the gold cell
while the gold is uncollected; identical states give identical output. -/
theorem percepts_spec (g : Game) (hb : onGrid g g.agent_pos) :
    percepts g = percepts g ∧
    percepts g ⊆ ["Breeze", "Stench", "Glitter"] ∧
    ("Breeze" ∈ percepts g ↔ ∃ c ∈ g.pits, orthAdj g.agent_pos c ∧ onGrid g c) ∧
    ("Stench" ∈ percepts g ↔
      g.wumpus_alive = true ∧ orthAdj g.agent_pos g.wumpus ∧ onGrid g g.wumpus) ∧
    ("Glitter" ∈ percepts g ↔ g.agent_pos = g.gold ∧ g.has_gold = false) := by
  refine ⟨rfl, ?_, ?_, ?_, glitter_mem g⟩
  · intro x hx
    unfold percepts at hx
    rcases List.mem_append.1 hx with hx | hx
    · rcases List.mem_append.1 hx with hx | hx <;> split_ifs at hx <;>
        first
          | exact absurd hx (List.not_mem_nil _)
          | (rw [List.mem_singleton.1 hx]; decide)
    · split_ifs at hx
      · rw [List.mem_singleton.1 hx]; decide
      · exact absurd hx (List.not_mem_nil _)
  · rw [breeze_mem g]
    constructor
    · rintro ⟨p, hp1, hp2⟩
      obtain ⟨h3, h4⟩ := (mem_adjacent_iff g _ p hb).1 hp2
      exact ⟨p, hp1, h3, h4⟩
    · rintro ⟨p, hp1, hp2, hp3⟩
      exact ⟨p, hp1, (mem_adjacent_iff g _ p hb).2 ⟨hp2, hp3⟩⟩
  · rw [stench_mem g]
    constructor
    · rintro ⟨h1, h2⟩
      obtain ⟨h3, h4⟩ := (mem_adjacent_iff g _ _ hb).1 h2
      exact ⟨h1, h3, h4⟩
    · rintro ⟨h1, h2, h3⟩
      exact ⟨h1, (mem_adjacent_iff g _ _ hb).2 ⟨h2, h3⟩⟩

/-- Concrete run of the C9 percept characterisation on the demo game. -/
theorem percepts_spec_witness :
    onGrid demo demo.agent_pos ∧
    ("Glitter" ∈ percepts demo ↔ demo.agent_pos = demo.gold ∧ demo.has_gold = false) :=
  ⟨by decide, (percepts_spec demo (by decide)).2.2.2.2⟩

/-- A single save never lowers the stored score of its own key. -/
theorem save_mono_one (store : HSStore) (gs : Nat) (sc : Int) (now : String) :
    load_high_score store gs ≤ load_high_score (save_high_score store gs sc now) gs := by
  unfold save_high_score
  split_ifs with h
  · have h2 : load_high_score
        (fun k => if k = gs then some { score := sc, date := now } else store k) gs = sc := by
      unfold load_high_score
      simp
    rw [h2]
    exact le_of_lt h
  · exact le_refl _

/-- A single save, at any key, never lowers the stored score of gs. -/
theorem save_mono_any (store : HSStore) (g1 gs : Nat) (sc1 : Int) (now1 : String) :
    load_high_score store gs ≤ load_high_score (save_high_score store g1 sc1 now1) gs := by
  by_cases hk : gs = g1
  · subst hk
    exact save_mono_one store gs sc1 now1
  · have h2 : load_high_score (save_high_score store g1 sc1 now1) gs =
        load_high_score store gs := by
      unfold save_high_score
      split_ifs with h
      · unfold load_high_score
        simp [hk]
      · rfl
    rw [h2]

/-- No sequence of saves lowers the stored score of any key. -/
theorem saveAll_mono (gs : Nat) : ∀ (saves : List (Nat × Int × String)) (store : HSStore),
    load_high_score store gs ≤ load_high_score (saveAll store saves) gs := by
  intro saves
  induction saves with
  | nil => intro store; exact le_refl _
  | cons p rest ih =>
    intro store
    obtain ⟨g1, sc1, now1⟩ := p
    exact le_trans (save_mono_any store g1 gs sc1 now1) (ih _)

/-- C6: save_high_score rewrites the record of its grid size only when
the new score strictly exceeds the stored one, leaves every other grid
size unchanged, never lowers any stored best across any sequence of
saves, and a load immediately after saving a strictly higher score
returns that score. -/
theorem high_score_store (store : HSStore) (gs k : Nat) (sc : Int) (now : String)
    (saves : List (Nat × Int × String)) (hk : ¬k = gs) :
    (save_high_score store gs sc now) k = store k ∧
    (sc ≤ load_high_score store gs → save_high_score store gs sc now = store) ∧
    (sc > load_high_score store gs →
      load_high_score (save_high_score store gs sc now) gs = sc) ∧
    load_high_score store gs ≤ load_high_score (save_high_score store gs sc now) gs ∧
    load_high_score store gs ≤ load_high_score (saveAll store saves) gs := by
  refine ⟨?_, ?_, ?_, save_mono_one store gs sc now, saveAll_mono gs saves store⟩
  · unfold save_high_score
    split_ifs with h
    · simp [hk]
    · rfl
  · intro hle
    unfold save_high_score
    rw [if_neg (by omega)]
  · intro hgt
    unfold save_high_score
    rw [if_pos hgt]
    unfold load_high_score
    simp

/-- Concrete runs of the C6 store contract: saving 500 then 300 for
grid size 6 on an empty store keeps 500, and other keys stay empty. -/
theorem high_score_store_witness :
    (save_high_score emptyStore 6 500 "a") 4 = emptyStore 4 ∧
    load_high_score (save_high_score emptyStore 6 500 "a") 6 = 500 ∧
    load_high_score emptyStore 6 ≤
      load_high_score (saveAll emptyStore [(6, 500, "a"), (6, 300, "b")]) 6 := by
  have h := high_score_store emptyStore 6 4 500 "a" [(6, 500, "a"), (6, 300, "b")]
    (by decide)
  exact ⟨h.1, h.2.2.1 (by decide), h.2.2.2.2⟩

/-- A successful draw avoids its exclusion list and comes from the
stream. -/
theorem randFuel_some (stream : Nat → Cell) (exclude : List Cell) :
    ∀ (fuel i : Nat) (c : Cell) (i2 : Nat),
      randFuel stream exclude i fuel = some (c, i2) →
      c ∉ exclude ∧ ∃ n, c = stream n := by
  intro fuel
  induction fuel with
  | zero => intro i c i2 h; cases h
  | succ fuel ih =>
    intro i c i2 h
    simp only [randFuel] at h
    split_ifs at h with hc
    · exact ih (i + 1) c i2 h
    · have h2 : (stream i, i + 1) = (c, i2) := Option.some.inj h
      have h3 : stream i = c := congrArg Prod.fst h2
      subst h3
      exact ⟨hc, i, rfl⟩

/-- The pit loop keeps the placements duplicate-free and places the
requested number of pits. -/
theorem placePits_some (stream : Nat → Cell) (base : List Cell) :
    ∀ (n : Nat) (acc : List Cell) (i fuel : Nat) (ps : List Cell) (i2 : Nat),
      placePits stream base n acc i fuel = some (ps, i2) →
      ps.length = acc.length + n ∧
      ((base ++ acc).Nodup → (base ++ ps).Nodup) := by
  intro n
  induction n with
  | zero =>
    intro acc i fuel ps i2 h
    simp only [placePits] at h
    have h2 := Option.some.inj h
    have h3 : acc = ps := congrArg Prod.fst h2
    subst h3
    exact ⟨rfl, fun hd => hd⟩
  | succ n ih =>
    intro acc i fuel ps i2 h
    simp only [placePits] at h
    cases hr : randFuel stream (base ++ acc) i fuel with
    | none => rw [hr] at h; cases h
    | some pi =>
      obtain ⟨p, i3⟩ := pi
      rw [hr] at h
      obtain ⟨hlen, hnd⟩ := ih (acc ++ [p]) i3 fuel ps i2 h
      obtain ⟨hpex, -⟩ := randFuel_some stream (base ++ acc) fuel i p i3 hr
      constructor
      · rw [hlen, List.length_append, List.length_singleton]
        omega
      · intro hd
        refine hnd ?_
        rw [← List.append_assoc]
        rw [List.nodup_append]
        refine ⟨hd, List.nodup_singleton p, ?_⟩
        intro a ha hpa
        rw [List.mem_singleton.1 hpa] at ha
        exact hpex ha

/-- C5: whenever the generation phase of _init_board terminates, the
wumpus cell, the gold cell, all pit cells, and the start cell (0, 0)
are pairwise distinct, and the number of pits equals the grid size. -/
theorem generated_world_distinct (g : Nat) (stream : Nat → Cell) (fuel : Nat) (b : Board)
    (h : initBoardG g stream fuel = some b) :
    ((0, 0) :: b.wumpus :: b.gold :: b.pits).Nodup ∧ b.pits.length = g := by
  unfold initBoardG at h
  cases h1 : randFuel stream [(0, 0)] 0 fuel with
  | none =>
    try rw [h1] at h
    dsimp only at h
    cases h
  | some wi =>
    obtain ⟨w, i1⟩ := wi
    try rw [h1] at h
    dsimp only at h
    cases h2 : randFuel stream [(0, 0), w] i1 fuel with
    | none =>
      try rw [h2] at h
      dsimp only at h
      cases h
    | some gi =>
      obtain ⟨go, i2⟩ := gi
      try rw [h2] at h
      dsimp only at h
      cases h3 : placePits stream [(0, 0), w, go] g [] i2 fuel with
      | none =>
        try rw [h3] at h
        dsimp only at h
        cases h
      | some pi =>
        obtain ⟨ps, i3⟩ := pi
        try rw [h3] at h
        dsimp only at h
        have hb : b = { wumpus := w, gold := go, pits := ps } := (Option.some.inj h).symm
        subst hb
        obtain ⟨hw, -⟩ := randFuel_some stream [(0, 0)] fuel 0 w i1 h1
        obtain ⟨hg, -⟩ := randFuel_some stream [(0, 0), w] fuel i1 go i2 h2
        obtain ⟨hlen, hnd⟩ := placePits_some stream [(0, 0), w, go] g [] i2 fuel ps i3 h3
        have hw2 : w ≠ (0, 0) := fun he => hw (by rw [he]; exact List.mem_singleton.2 rfl)
        have hg2 : go ≠ (0, 0) := fun he => hg (by rw [he]; exact List.mem_cons_self _ _)
        have hg3 : go ≠ w := fun he =>
          hg (by rw [he]; exact List.mem_cons_of_mem _ (List.mem_singleton.2 rfl))
        constructor
        · have hbase : (([(0, 0), w, go] : List Cell) ++ ([] : List Cell)).Nodup := by
            simp only [List.append_nil]
            rw [List.nodup_cons, List.nodup_cons]
            refine ⟨?_, ?_, List.nodup_singleton _⟩
            · intro hm
              rcases List.mem_cons.1 hm with he | hm2
              · exact hw2 he.symm
              · exact hg2 (List.mem_singleton.1 hm2).symm
            · intro hm
              exact hg3 (List.mem_singleton.1 hm).symm
          exact hnd hbase
        · rw [hlen]
          simp

/-- Concrete terminating run of the generator on the column stream. -/
theorem generated_world_distinct_witness :
    (((0, 0) : Cell) :: ((1, 0) : Cell) :: ((2, 0) : Cell) :: [((3, 0) : Cell)]).Nodup ∧
    [((3, 0) : Cell)].length = 1 :=
  generated_world_distinct 1 streamLin 5
    { wumpus := (1, 0), gold := (2, 0), pits := [(3, 0)] } (by decide)

/-- When the exclusion list covers every draw, the retry loop of _rand
never returns. -/
theorem randFuel_none_of_covered (stream : Nat → Cell) (exclude : List Cell)
    (h : ∀ n, stream n ∈ exclude) :
    ∀ (fuel i : Nat), randFuel stream exclude i fuel = none := by
  intro fuel
  induction fuel with
  | zero => intro i; rfl
  | succ fuel ih =>
    intro i
    simp only [randFuel]
    rw [if_pos (h i)]
    exact ih (i + 1)

/-- Every cyclic draw lies on the 2 x 2 grid. -/
theorem cyc4_mem (n : Nat) : cyc4 n ∈ cells4 := by
  have h : n % 4 = 0 ∨ n % 4 = 1 ∨ n % 4 = 2 ∨ n % 4 = 3 := by omega
  unfold cyc4
  rcases h with h | h | h | h <;> rw [h] <;> decide

/-- The cyclic stream is an admissible draw stream for grid size 2. -/
theorem cyc4_fair : FairStream 2 cyc4 := by
  constructor
  · intro n
    have h : n % 4 = 0 ∨ n % 4 = 1 ∨ n % 4 = 2 ∨ n % 4 = 3 := by omega
    unfold cyc4
    rcases h with h | h | h | h <;> rw [h] <;> decide
  · intro i c hc
    obtain ⟨a, b⟩ := c
    obtain ⟨h1, h2, h3, h4⟩ := hc
    have ha : a = 0 ∨ a = 1 := by
      have : (2 : Int) = ((2 : Nat) : Int) := by norm_num
      omega
    have hb : b = 0 ∨ b = 1 := by omega
    rcases ha with rfl | rfl <;> rcases hb with rfl | rfl
    · refine ⟨4 * (i / 4) + 4, by omega, ?_⟩
      unfold cyc4
      rw [show (4 * (i / 4) + 4) % 4 = 0 by omega]
      decide
    · refine ⟨4 * (i / 4) + 4 + 2, by omega, ?_⟩
      unfold cyc4
      rw [show (4 * (i / 4) + 4 + 2) % 4 = 2 by omega]
      decide
    · refine ⟨4 * (i / 4) + 4 + 1, by omega, ?_⟩
      unfold cyc4
      rw [show (4 * (i / 4) + 4 + 1) % 4 = 1 by omega]
      decide
    · refine ⟨4 * (i / 4) + 4 + 3, by omega, ?_⟩
      unfold cyc4
      rw [show (4 * (i / 4) + 4 + 3) % 4 = 3 by omega]
      decide

/-- Four pairwise distinct cells of the 2 x 2 grid cover it. -/
theorem cells4_cover (w go p : Cell) (hw : w ∈ cells4) (hg : go ∈ cells4)
    (hp : p ∈ cells4) (d1 : ¬w = (0, 0)) (d2 : ¬go = (0, 0)) (d3 : ¬go = w)
    (d4 : ¬p = (0, 0)) (d5 : ¬p = w) (d6 : ¬p = go) (x : Cell) (hx : x ∈ cells4) :
    x ∈ ([(0, 0), w, go] ++ [p] : List Cell) := by
  fin_cases hw <;> fin_cases hg <;> fin_cases hp <;> fin_cases hx <;> simp_all

/-- On grid size 2 the pit loop exhausts the board: generation never
terminates, whatever the fuel. -/
theorem initBoardG2_none : ∀ fuel, initBoardG 2 cyc4 fuel = none := by
  intro fuel
  unfold initBoardG
  cases h1 : randFuel cyc4 [(0, 0)] 0 fuel with
  | none => rfl
  | some wi =>
    obtain ⟨w, i1⟩ := wi
    obtain ⟨hw, n1, hwe⟩ := randFuel_some cyc4 [(0, 0)] fuel 0 w i1 h1
    have hwm : w ∈ cells4 := by rw [hwe]; exact cyc4_mem n1
    dsimp only
    cases h2 : randFuel cyc4 [(0, 0), w] i1 fuel with
    | none => rfl
    | some gi =>
      obtain ⟨go, i2⟩ := gi
      obtain ⟨hg, n2, hge⟩ := randFuel_some cyc4 [(0, 0), w] fuel i1 go i2 h2
      have hgm : go ∈ cells4 := by rw [hge]; exact cyc4_mem n2
      dsimp only
      have hpp : placePits cyc4 [(0, 0), w, go] 2 [] i2 fuel = none := by
        simp only [placePits]
        cases h3 : randFuel cyc4 ([(0, 0), w, go] ++ []) i2 fuel with
        | none => rfl
        | some pi =>
          obtain ⟨p, i3⟩ := pi
          obtain ⟨hp, n3, hpe⟩ := randFuel_some cyc4 ([(0, 0), w, go] ++ []) fuel i2 p i3 h3
          have hpm : p ∈ cells4 := by rw [hpe]; exact cyc4_mem n3
          rw [List.append_nil] at hp
          dsimp only
          have hcov : ∀ n, cyc4 n ∈ ([(0, 0), w, go] ++ ([] ++ [p]) : List Cell) := by
            intro n
            have hcv := cells4_cover w go p hwm hgm hpm
              (fun he => hw (by rw [he]; simp))
              (fun he => hg (by rw [he]; simp))
              (fun he => hg (by rw [he]; simp))
              (fun he => hp (by rw [he]; simp))
              (fun he => hp (by rw [he]; simp))
              (fun he => hp (by rw [he]; simp))
              (cyc4 n) (cyc4_mem n)
            simpa using hcv
          rw [randFuel_none_of_covered cyc4 ([(0, 0), w, go] ++ ([] ++ [p])) hcov fuel i3]
      rw [hpp]

/-- More fuel never changes a successful retry loop. -/
theorem randFuel_mono (stream : Nat → Cell) (exclude : List Cell) :
    ∀ (fuel i : Nat) (r : Cell × Nat), randFuel stream exclude i fuel = some r →
      ∀ fuel2, fuel ≤ fuel2 → randFuel stream exclude i fuel2 = some r := by
  intro fuel
  induction fuel with
  | zero => intro i r h; cases h
  | succ fuel ih =>
    intro i r h fuel2 hle
    obtain ⟨f2, rfl⟩ : ∃ f2, fuel2 = f2 + 1 := ⟨fuel2 - 1, by omega⟩
    simp only [randFuel] at h ⊢
    split_ifs at h ⊢ with hc
    · exact ih (i + 1) r h f2 (by omega)
    · exact h

/-- A free draw ahead in the stream makes the retry loop succeed for
some fuel. -/
theorem randFuel_found (stream : Nat → Cell) (exclude : List Cell) :
    ∀ (k i : Nat), stream (i + k) ∉ exclude →
      ∃ fuel c i2, randFuel stream exclude i fuel = some (c, i2) := by
  intro k
  induction k with
  | zero =>
    intro i h
    rw [Nat.add_zero] at h
    exact ⟨1, stream i, i + 1, by simp only [randFuel]; rw [if_neg h]⟩
  | succ k ih =>
    intro i h
    by_cases hc : stream i ∈ exclude
    · obtain ⟨fuel, c, i2, hf⟩ := ih (i + 1)
        (by rw [show i + 1 + k = i + (k + 1) by omega]; exact h)
      exact ⟨fuel + 1, c, i2, by simp only [randFuel]; rw [if_pos hc]; exact hf⟩
    · exact ⟨1, stream i, i + 1, by simp only [randFuel]; rw [if_neg hc]⟩

/-- A shorter exclusion list than the board leaves a free cell. -/
theorem exists_free (g : Nat) (exclude : List Cell) (h : exclude.length < g * g) :
    ∃ c : Cell, inB g c ∧ c ∉ exclude := by
  classical
  have hinj : Function.Injective (fun p : Nat × Nat => (((p.1 : Int), (p.2 : Int)) : Cell)) := by
    rintro ⟨a1, a2⟩ ⟨b1, b2⟩ hp
    simp only [Prod.mk.injEq, Int.natCast_inj] at hp
    simp [Prod.mk.injEq, hp.1, hp.2]
  have hcard : ((Finset.range g ×ˢ Finset.range g).image
      (fun p : Nat × Nat => (((p.1 : Int), (p.2 : Int)) : Cell))).card = g * g := by
    rw [Finset.card_image_of_injective _ hinj]
    simp
  by_contra hno
  push_neg at hno
  have hsub : (Finset.range g ×ˢ Finset.range g).image
      (fun p : Nat × Nat => (((p.1 : Int), (p.2 : Int)) : Cell)) ⊆ exclude.toFinset := by
    intro c hc
    simp only [Finset.mem_image, Finset.mem_product, Finset.mem_range] at hc
    obtain ⟨⟨a, b⟩, ⟨ha, hb⟩, rfl⟩ := hc
    refine List.mem_toFinset.2 (hno _ ?_)
    refine ⟨Int.natCast_nonneg a, ?_, Int.natCast_nonneg b, ?_⟩
    · show (a : Int) < (g : Int)
      exact_mod_cast ha
    · show (b : Int) < (g : Int)
      exact_mod_cast hb
  have hle := Finset.card_le_card hsub
  have hle2 := List.toFinset_card_le (l := exclude)
  omega

/-- More fuel never changes a successful pit loop. -/
theorem placePits_mono (stream : Nat → Cell) (base : List Cell) :
    ∀ (n : Nat) (acc : List Cell) (i fuel : Nat) (r : List Cell × Nat),
      placePits stream base n acc i fuel = some r →
      ∀ fuel2, fuel ≤ fuel2 → placePits stream base n acc i fuel2 = some r := by
  intro n
  induction n with
  | zero => intro acc i fuel r h fuel2 _; exact h
  | succ n ih =>
    intro acc i fuel r h fuel2 hle
    simp only [placePits] at h ⊢
    cases hr : randFuel stream (base ++ acc) i fuel with
    | none => rw [hr] at h; cases h
    | some pi =>
      obtain ⟨p, i3⟩ := pi
      rw [hr] at h
      rw [randFuel_mono stream (base ++ acc) fuel i (p, i3) hr fuel2 hle]
      exact ih (acc ++ [p]) i3 fuel r h fuel2 hle

/-- On an admissible stream, the pit loop terminates as long as the
exclusions cannot exhaust the board. -/
theorem placePits_term (g : Nat) (stream : Nat → Cell) (base : List Cell)
    (hf : FairStream g stream) :
    ∀ (n : Nat) (acc : List Cell) (i : Nat),
      base.length + acc.length + n ≤ g * g →
      ∃ fuel ps i2, placePits stream base n acc i fuel = some (ps, i2) := by
  intro n
  induction n with
  | zero => intro acc i _; exact ⟨0, acc, i, rfl⟩
  | succ n ih =>
    intro acc i hle
    have hlen : (base ++ acc).length < g * g := by
      rw [List.length_append]
      omega
    obtain ⟨c, hcB, hcex⟩ := exists_free g (base ++ acc) hlen
    obtain ⟨j, hij, hj⟩ := hf.2 i c hcB
    have hs : stream (i + (j - i)) ∉ base ++ acc := by
      rw [show i + (j - i) = j by omega, hj]
      exact hcex
    obtain ⟨f1, p, i3, h1⟩ := randFuel_found stream (base ++ acc) (j - i) i hs
    obtain ⟨f2, ps, i4, h2⟩ := ih (acc ++ [p]) i3
      (by rw [List.length_append, List.length_singleton]; omega)
    refine ⟨max f1 f2, ps, i4, ?_⟩
    simp only [placePits]
    rw [randFuel_mono stream (base ++ acc) f1 i (p, i3) h1 (max f1 f2) (le_max_left _ _)]
    exact placePits_mono stream base n (acc ++ [p]) i3 f2 (ps, i4) h2
      (max f1 f2) (le_max_right _ _)

/-- C8 fails as stated at gridSize 2: the board has 4 cells while the
2 pits, the wumpus, the gold, and the start cell need 5, so on the
fair cyclic stream no fuel ever completes generation. -/
theorem generation_terminates_cex : 2 ≤ 2 ∧ ¬GenTerminates 2 := by
  refine ⟨le_refl 2, fun h => ?_⟩
  obtain ⟨fuel, hfu⟩ := h cyc4 cyc4_fair
  rw [initBoardG2_none fuel] at hfu
  cases hfu

/-- C8 amended: for every gridSize of at least 3, world generation
terminates on every admissible draw stream, because the gridSize pits
plus the wumpus, the gold, and the start cell fit within the
gridSize squared cells. -/
theorem generation_terminates (g : Nat) (hg : 3 ≤ g) : GenTerminates g := by
  intro stream hf
  have stage : ∀ (exclude : List Cell) (i : Nat), exclude.length < g * g →
      ∃ fuel c i2, randFuel stream exclude i fuel = some (c, i2) := by
    intro exclude i hlen
    obtain ⟨c, hcB, hcex⟩ := exists_free g exclude hlen
    obtain ⟨j, hij, hj⟩ := hf.2 i c hcB
    exact randFuel_found stream exclude (j - i) i
      (by rw [show i + (j - i) = j by omega, hj]; exact hcex)
  have hgg : 9 ≤ g * g := Nat.mul_le_mul hg hg
  have hl1 : ([((0 : Int), (0 : Int))] : List Cell).length < g * g := by simp; omega
  obtain ⟨f1, w, i1, h1⟩ := stage [(0, 0)] 0 hl1
  have hl2 : ([((0 : Int), (0 : Int)), w] : List Cell).length < g * g := by simp; omega
  obtain ⟨f2, go, i2, h2⟩ := stage [(0, 0), w] i1 hl2
  have h3g : 3 * g ≤ g * g := Nat.mul_le_mul_right g hg
  have hpits : ([(0, 0), w, go] : List Cell).length + ([] : List Cell).length + g ≤ g * g := by
    simp
    omega
  obtain ⟨f3, ps, i3, h3⟩ := placePits_term g stream [(0, 0), w, go] hf g [] i2 hpits
  refine ⟨max f1 (max f2 f3), ?_⟩
  unfold initBoardG
  rw [randFuel_mono stream [(0, 0)] f1 0 (w, i1) h1 _ (le_max_left _ _)]
  dsimp only
  rw [randFuel_mono stream [(0, 0), w] f2 i1 (go, i2) h2 _
    (le_trans (le_max_left _ _) (le_max_right _ _))]
  dsimp only
  rw [placePits_mono stream [(0, 0), w, go] g [] i2 f3 (ps, i3) h3 _
    (le_trans (le_max_right _ _) (le_max_right _ _))]
  rfl

/-- Concrete instance of the amended C8 at the smallest covered grid. -/
theorem generation_terminates_witness : 3 ≤ 3 ∧ GenTerminates 3 :=
  ⟨le_refl 3, generation_terminates 3 (le_refl 3)⟩

end Wumpus
